import Mathlib

/-!
Verification of the PyTetris core engine.

This file gives a shallow embedding of the Python modules
`board.py`, `tetromino.py`, `collision.py`, `score_manager.py` and
`game_state.py`, and proves (or refutes) the specification claims about
them.  Python `int` is modelled by `Int` (with `Int.fdiv` for Python's
floor division `//`), `None`-able cells by `Option String`, and code that
can raise by `Option`-returning functions (`none` = exception).
-/

namespace PyTetris

/-- The game board: `width × height` grid of optional colour cells
(`board.py`, class `Board`).  `grid` is a list of rows, each row a list of
cells, exactly as the Python list-of-lists. -/
structure Board where
  width : Nat
  height : Nat
  grid : List (List (Option String))
  deriving Repr, DecidableEq

/-- `Board.__init__`: a `height × width` grid of `None`. -/
def Board.init (width : Nat := 10) (height : Nat := 20) : Board :=
  { width := width, height := height
    grid := List.replicate height (List.replicate width none) }

/-- The well-formedness invariant maintained by every `Board` produced by
the API: the grid has exactly `height` rows of exactly `width` cells. -/
def WellFormed (b : Board) : Prop :=
  b.grid.length = b.height ∧ ∀ r ∈ b.grid, r.length = b.width

instance (b : Board) : Decidable (WellFormed b) := by
  unfold WellFormed; infer_instance

/-- `Board.set_cell`: writes the cell if `0 <= row < height and
0 <= col < width`, otherwise silently does nothing. -/
def set_cell (b : Board) (row col : Int) (value : String) : Board :=
  if 0 ≤ row ∧ row < (b.height : Int) ∧ 0 ≤ col ∧ col < (b.width : Int) then
    let newRow := (b.grid.getD row.toNat []).set col.toNat (some value)
    { b with grid := b.grid.set row.toNat newRow }
  else b

/-- `Board.get_cell`: returns the cell if in bounds, `None` otherwise. -/
def get_cell (b : Board) (row col : Int) : Option String :=
  if 0 ≤ row ∧ row < (b.height : Int) ∧ 0 ≤ col ∧ col < (b.width : Int) then
    (b.grid.getD row.toNat []).getD col.toNat none
  else none

/-- `Board.clear_cell`: clears the cell if in bounds, otherwise no-op. -/
def clear_cell (b : Board) (row col : Int) : Board :=
  if 0 ≤ row ∧ row < (b.height : Int) ∧ 0 ≤ col ∧ col < (b.width : Int) then
    let newRow := (b.grid.getD row.toNat []).set col.toNat none
    { b with grid := b.grid.set row.toNat newRow }
  else b

/-- `Board.is_empty`: the cell reads as `None`. -/
def is_empty (b : Board) (row col : Int) : Bool :=
  get_cell b row col = none

/-- `Board.is_valid_position`: in bounds and empty. -/
def is_valid_position (b : Board) (row col : Int) : Bool :=
  if row < 0 ∨ (b.height : Int) ≤ row then false
  else if col < 0 ∨ (b.width : Int) ≤ col then false
  else is_empty b row col

/-- One row is complete when all `width` columns are occupied
(the `all(...)` generator in `Board.get_complete_lines`). -/
def row_full (width : Nat) (row : List (Option String)) : Bool :=
  (List.range width).all fun col => (row.getD col none).isSome

/-- `Board.get_complete_lines`: ascending indices of the complete rows. -/
def get_complete_lines (b : Board) : List Int :=
  List.map (fun (row : Nat) => (row : Int))
    ((List.range b.height).filter fun row =>
      row_full b.width (b.grid.getD row []))

/-- Python `del l[i]` on a list: deletes at `i` for `0 ≤ i < len`,
deletes at `i + len` for `-len ≤ i < 0`, raises `IndexError` (= `none`)
otherwise. -/
def pyDelAt {α : Type} (l : List α) (i : Int) : Option (List α) :=
  if 0 ≤ i ∧ i < (l.length : Int) then some (l.eraseIdx i.toNat)
  else if -(l.length : Int) ≤ i ∧ i < 0 then some (l.eraseIdx (i + l.length).toNat)
  else none

/-- The deletion loop `for line in sorted_lines: del self.grid[line]` of
`Board.clear_lines`, propagating a possible `IndexError`. -/
def delete_rows {α : Type} : List α → List Int → Option (List α)
  | g, [] => some g
  | g, d :: ds => (pyDelAt g d).bind fun g2 => delete_rows g2 ds

/-- `Board.clear_lines`: sort descending, delete each index in turn, then
insert `len(lines)` fresh empty rows at the top.  `none` models the
`IndexError` Python raises when a deletion index is out of range. -/
def clear_lines (b : Board) (lines : List Int) : Option Board :=
  if lines = [] then some b
  else
    (delete_rows b.grid (List.insertionSort (fun a b => b ≤ a) lines)).map fun g =>
      { b with
        grid := List.replicate lines.length (List.replicate b.width none) ++ g }

/-- `Board.is_game_over`: some cell of the top row is occupied. -/
def is_game_over (b : Board) : Bool :=
  (List.range b.width).any fun col => !(is_empty b 0 (col : Int))

/-- Specification-side description of the deletion loop: keep the rows of
`g` whose absolute index (starting at `n`) is not in `S`. -/
def removeRowsAux {α : Type} (S : List Int) : Nat → List α → List α
  | _, [] => []
  | i, a :: g =>
    if (i : Int) ∈ S then removeRowsAux S (i + 1) g
    else a :: removeRowsAux S (i + 1) g

/-- Rows of `g` whose index is not in `S`, in order. -/
def removeRows {α : Type} (g : List α) (S : List Int) : List α :=
  removeRowsAux S 0 g

/-- The seven tetromino type tags (`tetromino.py`). -/
inductive PieceType where
  | I | O | T | S | Z | J | L
  deriving Repr, DecidableEq

/-- The precomputed rotation table `PIECE_SHAPES`: for each type and
rotation state (0–3), the four `(rowOffset, colOffset)` block offsets. -/
def PIECE_SHAPES : PieceType → Fin 4 → List (Int × Int)
  | .I, 0 => [(0, 0), (0, 1), (0, 2), (0, 3)]
  | .I, 1 => [(0, 1), (1, 1), (2, 1), (3, 1)]
  | .I, 2 => [(1, 0), (1, 1), (1, 2), (1, 3)]
  | .I, 3 => [(0, 2), (1, 2), (2, 2), (3, 2)]
  | .O, _ => [(0, 0), (0, 1), (1, 0), (1, 1)]
  | .T, 0 => [(0, 1), (1, 0), (1, 1), (1, 2)]
  | .T, 1 => [(0, 1), (1, 1), (1, 2), (2, 1)]
  | .T, 2 => [(1, 0), (1, 1), (1, 2), (2, 1)]
  | .T, 3 => [(0, 1), (1, 0), (1, 1), (2, 1)]
  | .S, 0 => [(0, 1), (0, 2), (1, 0), (1, 1)]
  | .S, 1 => [(0, 0), (1, 0), (1, 1), (2, 1)]
  | .S, 2 => [(1, 1), (1, 2), (2, 0), (2, 1)]
  | .S, 3 => [(0, 1), (1, 1), (1, 2), (2, 2)]
  | .Z, 0 => [(0, 0), (0, 1), (1, 1), (1, 2)]
  | .Z, 1 => [(0, 2), (1, 1), (1, 2), (2, 1)]
  | .Z, 2 => [(1, 0), (1, 1), (2, 1), (2, 2)]
  | .Z, 3 => [(0, 1), (1, 0), (1, 1), (2, 0)]
  | .J, 0 => [(0, 0), (1, 0), (1, 1), (1, 2)]
  | .J, 1 => [(0, 1), (0, 2), (1, 1), (2, 1)]
  | .J, 2 => [(1, 0), (1, 1), (1, 2), (2, 2)]
  | .J, 3 => [(0, 1), (1, 1), (2, 0), (2, 1)]
  | .L, 0 => [(0, 2), (1, 0), (1, 1), (1, 2)]
  | .L, 1 => [(0, 1), (1, 1), (2, 1), (2, 2)]
  | .L, 2 => [(1, 0), (1, 1), (1, 2), (2, 0)]
  | .L, 3 => [(0, 0), (0, 1), (1, 1), (2, 1)]

/-- The colour table `PIECE_COLORS`. -/
def PIECE_COLORS : PieceType → String
  | .I => "cyan"
  | .O => "yellow"
  | .T => "purple"
  | .S => "green"
  | .Z => "red"
  | .J => "blue"
  | .L => "orange"

/-- A tetromino piece (`tetromino.py`, class `Tetromino`): type tag,
anchor position and rotation index.  The Python `shape` field is always
kept equal to `PIECE_SHAPES[type][rotation_state]` by the constructor and
the rotation methods, so it is modelled as the derived `Tetromino.shape`
below, and `color` likewise. -/
structure Tetromino where
  type : PieceType
  row : Int
  col : Int
  rotation_state : Fin 4
  deriving Repr, DecidableEq

/-- The always-in-sync `shape` attribute. -/
def Tetromino.shape (p : Tetromino) : List (Int × Int) :=
  PIECE_SHAPES p.type p.rotation_state

/-- The derived `color` attribute. -/
def Tetromino.color (p : Tetromino) : String :=
  PIECE_COLORS p.type

/-- `Tetromino.__init__ (piece_type, spawn_col=3)`. -/
def Tetromino.init (t : PieceType) (spawn_col : Int := 3) : Tetromino :=
  { type := t, row := 0, col := spawn_col, rotation_state := 0 }

/-- `Tetromino.get_block_positions`: anchor plus each offset. -/
def get_block_positions (p : Tetromino) : List (Int × Int) :=
  p.shape.map fun off => (p.row + off.1, p.col + off.2)

/-- Python `min` over a (always nonempty here) list of ints. -/
def list_min (l : List Int) : Int := l.min?.getD 0

/-- Python `max` over a (always nonempty here) list of ints. -/
def list_max (l : List Int) : Int := l.max?.getD 0

/-- `CollisionDetector.is_valid_move`: every block of the piece's current
shape, placed at `(new_row, new_col)`, lands on a valid board position. -/
def is_valid_move (b : Board) (p : Tetromino) (new_row new_col : Int) : Bool :=
  p.shape.all fun off => is_valid_position b (new_row + off.1) (new_col + off.2)

/-- `CollisionDetector.can_move_left`. -/
def can_move_left (b : Board) (p : Tetromino) : Bool :=
  is_valid_move b p p.row (p.col - 1)

/-- `CollisionDetector.can_move_right`. -/
def can_move_right (b : Board) (p : Tetromino) : Bool :=
  is_valid_move b p p.row (p.col + 1)

/-- `CollisionDetector.can_move_down`. -/
def can_move_down (b : Board) (p : Tetromino) : Bool :=
  is_valid_move b p (p.row + 1) p.col

/-- `CollisionDetector.should_lock`. -/
def should_lock (b : Board) (p : Tetromino) : Bool :=
  !(can_move_down b p)

/-- The columns occupied by a shape placed at anchor column `col`
(the `piece.col + col_offset` generators in `can_rotate`). -/
def shape_cols (col : Int) (shape : List (Int × Int)) : List Int :=
  shape.map fun off => col + off.2

/-- `CollisionDetector.can_rotate`: simulate advancing the rotation index
by one (mod 4); reject if any resulting absolute cell is invalid; also
reject if the rotation newly brings the piece flush against a wall
(minimum column becomes 0, or maximum column becomes `width - 1`, when it
was not so before). -/
def can_rotate (b : Board) (p : Tetromino) : Bool :=
  let current_shape := PIECE_SHAPES p.type p.rotation_state
  let next_shape := PIECE_SHAPES p.type (p.rotation_state + 1)
  if !(next_shape.all fun off =>
      is_valid_position b (p.row + off.1) (p.col + off.2)) then false
  else
    let min_col := list_min (shape_cols p.col next_shape)
    let max_col := list_max (shape_cols p.col next_shape)
    let current_min_col := list_min (shape_cols p.col current_shape)
    let current_max_col := list_max (shape_cols p.col current_shape)
    if (min_col = 0 ∧ 0 < current_min_col) ∨
       (max_col = (b.width : Int) - 1 ∧ current_max_col < (b.width : Int) - 1)
    then false
    else true

/-- The fixed candidate offsets of `get_wall_kick_offset`, in source
order: left 1, right 1, left 2, right 2, up 1. -/
def kick_offsets : List (Int × Int) :=
  [(0, -1), (0, 1), (0, -2), (0, 2), (-1, 0)]

/-- One candidate test of `get_wall_kick_offset`: with the anchor moved by
`off`, every absolute cell of the piece's next rotation state is valid. -/
def rotation_fits (b : Board) (p : Tetromino) (off : Int × Int) : Bool :=
  (PIECE_SHAPES p.type (p.rotation_state + 1)).all fun s =>
    is_valid_position b (p.row + off.1 + s.1) (p.col + off.2 + s.2)

/-- `CollisionDetector.get_wall_kick_offset`: the first candidate offset
for which the rotated piece fits, `None` when no candidate succeeds. -/
def get_wall_kick_offset (b : Board) (p : Tetromino) : Option (Int × Int) :=
  kick_offsets.find? fun off => rotation_fits b p off

/-- Score manager state (`score_manager.py`, class `ScoreManager`); the
`save_file` path is irrelevant to the in-memory behaviour. -/
structure ScoreManager where
  score : Int
  lines_cleared : Int
  high_score : Int
  deriving Repr, DecidableEq

/-- `ScoreManager.__init__`. -/
def ScoreManager.init : ScoreManager :=
  { score := 0, lines_cleared := 0, high_score := 0 }

/-- `ScoreManager.get_level`: `1 + lines_cleared // 10` (Python floor
division, hence `Int.fdiv`). -/
def get_level (s : ScoreManager) : Int :=
  1 + Int.fdiv s.lines_cleared 10

/-- The `points_map` lookup of `add_line_clear_score`. -/
def points_map (num_lines : Int) : Option Int :=
  if num_lines = 1 then some 100
  else if num_lines = 2 then some 300
  else if num_lines = 3 then some 500
  else if num_lines = 4 then some 800
  else none

/-- `ScoreManager.add_line_clear_score`: for `num_lines` in the points
map, add `points × level` (level computed before the update) to the score
and `num_lines` to `lines_cleared`; otherwise do nothing. -/
def add_line_clear_score (num_lines : Int) (s : ScoreManager) : ScoreManager :=
  let level := get_level s
  match points_map num_lines with
  | some pts =>
    { s with score := s.score + pts * level
             lines_cleared := s.lines_cleared + num_lines }
  | none => s

/-- `ScoreManager.add_soft_drop_score`: `score += cells`, unconditionally. -/
def add_soft_drop_score (cells : Int) (s : ScoreManager) : ScoreManager :=
  { s with score := s.score + cells }

/-- `ScoreManager.update_high_score`: raise the high score to the current
score when the latter is larger. -/
def update_high_score (s : ScoreManager) : ScoreManager :=
  if s.high_score < s.score then { s with high_score := s.score } else s

/-- `ScoreManager.reset`. -/
def ScoreManager.reset (s : ScoreManager) : ScoreManager :=
  { s with score := 0, lines_cleared := 0 }

/-- The game-state tags of `game_state.py`. -/
inductive GState where
  | START | PLAYING | PAUSED | GAME_OVER
  deriving Repr, DecidableEq

/-- The orchestrator state (`game_state.py`, class `GameState`).  The
collision detector holds only a reference to the board, so it needs no
field of its own; the random piece factory is modelled by passing the
freshly generated piece as an explicit argument to the operations that
draw one. -/
structure GameState where
  state : GState
  board : Board
  score_manager : ScoreManager
  current_piece : Option Tetromino
  next_piece : Option Tetromino
  deriving Repr, DecidableEq

/-- `GameState.end_game`. -/
def end_game (gs : GameState) : GameState :=
  { gs with state := .GAME_OVER
            score_manager := update_high_score gs.score_manager }

/-- `GameState.spawn_next_piece` with `fresh` the piece the random
factory returns: promote `next_piece` to `current_piece`, reset its
anchor to row 0 / column 3 when present, and store `fresh` as the new
preview piece. -/
def spawn_next_piece (gs : GameState) (fresh : Tetromino) : GameState :=
  let cur := gs.next_piece.map fun p => { p with row := 0, col := 3 }
  { gs with current_piece := cur, next_piece := some fresh }

/-- `GameState.try_spawn_piece` with `fresh` the factory's output: spawn
when no current piece, then validate the current piece's position.
Accessing `.row` on an absent current piece raises `AttributeError`,
modelled by `none`; a normal return is `some (flag, newState)`. -/
def try_spawn_piece (gs : GameState) (fresh : Tetromino) :
    Option (Bool × GameState) :=
  let gs1 := if gs.current_piece = none then spawn_next_piece gs fresh else gs
  match gs1.current_piece with
  | none => none
  | some p =>
    if is_valid_move gs1.board p p.row p.col then some (true, gs1)
    else some (false, end_game gs1)

/-- `GameState.get_drop_speed`: `max(1000 - (level - 1) * 100, 50)`. -/
def get_drop_speed (gs : GameState) : Int :=
  let level := get_level gs.score_manager
  max (1000 - (level - 1) * 100) 50

/-- Specification-side result of `clear_lines` on a duplicate-free
in-range index list: the rows whose index is in `lines` disappear, the
remaining rows keep their relative order (each therefore drops by the
number of removed rows below it), and `lines.length` fresh empty rows
appear at the top. -/
def cleared_board (b : Board) (lines : List Int) : Board :=
  { b with grid := List.replicate lines.length (List.replicate b.width none) ++
      removeRows b.grid lines }

/-- A 1-wide, 2-high board whose two rows are both complete. -/
def fullBoard : Board :=
  { width := 1, height := 2, grid := [[some "grey"], [some "grey"]] }

/-- `fullBoard` after clearing row 1: the surviving complete row slides
down to index 1 and an empty row appears on top. -/
def fullBoardCleared : Board :=
  { width := 1, height := 2, grid := [[none], [some "grey"]] }

/-- A game state in the START configuration: no current piece and no next
piece (as produced by `GameState.__init__` or `reset`). -/
def startState : GameState :=
  { state := .START, board := Board.init 10 20,
    score_manager := ScoreManager.init, current_piece := none,
    next_piece := none }

/-- The score-manager states reachable within a single game: start from a
fresh manager (score 0, no lines, any persisted high score `hs0`) and
apply the Score Tracker operations — `add_line_clear_score` with any
integer, `add_soft_drop_score` with the non-negative cell count a soft
drop produces, `update_high_score`. -/
inductive Reachable (hs0 : Int) : ScoreManager → Prop
  | start : Reachable hs0 { score := 0, lines_cleared := 0, high_score := hs0 }
  | line_clear {s : ScoreManager} (n : Int) :
      Reachable hs0 s → Reachable hs0 (add_line_clear_score n s)
  | soft_drop {s : ScoreManager} (c : Int) :
      0 ≤ c → Reachable hs0 s → Reachable hs0 (add_soft_drop_score c s)
  | high_update {s : ScoreManager} :
      Reachable hs0 s → Reachable hs0 (update_high_score s)

lemma removeRowsAux_high {α : Type} (S : List Int) (n : Nat) (g : List α)
    (h : ∀ x ∈ S, x < (n : Int)) : removeRowsAux S n g = g := by
  induction g generalizing n with
  | nil => rfl
  | cons a t ih =>
    unfold removeRowsAux
    rw [if_neg fun hm => absurd (h _ hm) (lt_irrefl _)]
    rw [ih (n + 1) fun x hx => lt_trans (h x hx) (by exact_mod_cast Nat.lt_succ_self n)]

lemma removeRowsAux_key {α : Type} (S : List Int) (d : Int)
    (hS : ∀ x ∈ S, x < d) :
    ∀ (g : List α) (n : Nat), (n : Int) ≤ d → d < (n : Int) + g.length →
      removeRowsAux (d :: S) n g = removeRowsAux S n (g.eraseIdx (d - n).toNat) := by
  intro g
  induction g with
  | nil => intro n _ _; simp [removeRowsAux, List.eraseIdx]
  | cons a t ih =>
    intro n h1 h2
    by_cases hd : (n : Int) = d
    · have h0 : (d - n).toNat = 0 := by omega
      rw [h0, List.eraseIdx_cons_zero]
      have hstep : removeRowsAux (d :: S) n (a :: t) = removeRowsAux (d :: S) (n + 1) t := by
        simp only [removeRowsAux]
        rw [if_pos (by rw [hd]; exact List.mem_cons_self d S)]
      rw [hstep, removeRowsAux_high (d :: S) (n + 1) t ?hall, removeRowsAux_high S n t ?hS2]
      case hall =>
        intro x hx
        rcases List.mem_cons.mp hx with h | h
        · omega
        · have := hS x h; omega
      case hS2 => intro x hx; have := hS x hx; omega
    · have hn : (n : Int) < d := lt_of_le_of_ne h1 hd
      have hsucc : (d - n).toNat = (d - (n + 1 : Nat)).toNat + 1 := by
        push_cast; omega
      rw [hsucc, List.eraseIdx_cons_succ]
      have hmem : ((n : Int) ∈ d :: S) ↔ ((n : Int) ∈ S) := by
        rw [List.mem_cons]; exact or_iff_right hd
      have hlen : (d : Int) < ((n + 1 : Nat) : Int) + t.length := by
        push_cast; push_cast [List.length_cons] at h2; omega
      have hle : ((n + 1 : Nat) : Int) ≤ d := by push_cast; omega
      simp only [removeRowsAux]
      by_cases hm : (n : Int) ∈ S
      · rw [if_pos (hmem.mpr hm), if_pos hm, ih (n + 1) hle hlen]
      · rw [if_neg (fun hx => hm (hmem.mp hx)), if_neg hm, ih (n + 1) hle hlen]

lemma removeRowsAux_congr {α : Type} (S S2 : List Int)
    (h : ∀ x, x ∈ S ↔ x ∈ S2) :
    ∀ (g : List α) (n : Nat), removeRowsAux S n g = removeRowsAux S2 n g := by
  intro g
  induction g with
  | nil => intro n; rfl
  | cons a t ih =>
    intro n
    unfold removeRowsAux
    by_cases hm : (n : Int) ∈ S
    · rw [if_pos hm, if_pos ((h _).mp hm), ih]
    · rw [if_neg hm, if_neg (fun hx => hm ((h _).mpr hx)), ih]

lemma delete_rows_eq {α : Type} :
    ∀ (ds : List Int) (g : List α),
      ds.Pairwise (fun a b => b < a) →
      (∀ d ∈ ds, 0 ≤ d ∧ d < (g.length : Int)) →
      delete_rows g ds = some (removeRows g ds) := by
  intro ds
  induction ds with
  | nil =>
    intro g _ _
    unfold delete_rows removeRows
    rw [removeRowsAux_high _ _ _ (by intro x hx; cases hx)]
  | cons d ds ih =>
    intro g hp hr
    have hd := hr d (List.mem_cons_self d ds)
    have hstrict : ∀ x ∈ ds, x < d := (List.pairwise_cons.mp hp).1
    have hlen : (g.eraseIdx d.toNat).length = g.length - 1 := by
      rw [List.length_eraseIdx, if_pos (by omega)]
    unfold delete_rows pyDelAt
    rw [if_pos ⟨hd.1, hd.2⟩, Option.some_bind]
    rw [ih (g.eraseIdx d.toNat) (List.pairwise_cons.mp hp).2 ?hr2]
    case hr2 =>
      intro x hx
      refine ⟨(hr x (List.mem_cons_of_mem d hx)).1, ?_⟩
      rw [hlen]
      have := hstrict x hx
      omega
    unfold removeRows
    rw [removeRowsAux_key ds d hstrict g 0 (by exact_mod_cast hd.1) (by push_cast; omega)]
    norm_num

lemma removeRows_length {α : Type} :
    ∀ (ds : List Int) (g : List α),
      ds.Pairwise (fun a b => b < a) →
      (∀ d ∈ ds, 0 ≤ d ∧ d < (g.length : Int)) →
      (removeRows g ds).length + ds.length = g.length := by
  intro ds
  induction ds with
  | nil =>
    intro g _ _
    unfold removeRows
    rw [removeRowsAux_high _ _ _ (by intro x hx; cases hx)]
    simp
  | cons d ds ih =>
    intro g hp hr
    have hd := hr d (List.mem_cons_self d ds)
    have hstrict : ∀ x ∈ ds, x < d := (List.pairwise_cons.mp hp).1
    have hlen : (g.eraseIdx d.toNat).length = g.length - 1 := by
      rw [List.length_eraseIdx, if_pos (by omega)]
    unfold removeRows
    rw [removeRowsAux_key ds d hstrict g 0 (by exact_mod_cast hd.1) (by push_cast; omega)]
    have := ih (g.eraseIdx d.toNat) (List.pairwise_cons.mp hp).2 ?hr2
    case hr2 =>
      intro x hx
      refine ⟨(hr x (List.mem_cons_of_mem d hx)).1, ?_⟩
      rw [hlen]
      have := hstrict x hx
      omega
    unfold removeRows at this
    rw [hlen] at this
    simp only [Nat.cast_zero, sub_zero, List.length_cons]
    omega

lemma mem_removeRowsAux {α : Type} {x : α} (S : List Int) :
    ∀ (g : List α) (n : Nat), x ∈ removeRowsAux S n g →
      ∃ j : Nat, g[j]? = some x ∧ ¬ (((n + j : Nat) : Int) ∈ S) := by
  intro g
  induction g with
  | nil => intro n h; cases h
  | cons a t ih =>
    intro n h
    unfold removeRowsAux at h
    by_cases hm : (n : Int) ∈ S
    · rw [if_pos hm] at h
      obtain ⟨j, hj, hjS⟩ := ih (n + 1) h
      exact ⟨j + 1, by simpa using hj, by convert hjS using 3; omega⟩
    · rw [if_neg hm] at h
      rcases List.mem_cons.mp h with h | h
      · exact ⟨0, by simp [h], by simpa using hm⟩
      · obtain ⟨j, hj, hjS⟩ := ih (n + 1) h
        exact ⟨j + 1, by simpa using hj, by convert hjS using 3; omega⟩

lemma mem_removeRows {α : Type} {x : α} {g : List α} {S : List Int}
    (h : x ∈ removeRows g S) :
    ∃ j : Nat, g[j]? = some x ∧ ¬ ((j : Int) ∈ S) := by
  obtain ⟨j, hj, hjS⟩ := mem_removeRowsAux S g 0 h
  exact ⟨j, hj, by simpa using hjS⟩

instance : IsTotal Int fun a b => b ≤ a := ⟨fun a b => le_total b a⟩

instance : IsTrans Int fun a b => b ≤ a := ⟨fun _ _ _ h1 h2 => le_trans h2 h1⟩

lemma sort_desc_strict (lines : List Int) (hnd : lines.Nodup) :
    (List.insertionSort (fun a b => b ≤ a) lines).Pairwise fun a b => b < a := by
  have hs : List.Pairwise (fun a b : Int => b ≤ a)
      (List.insertionSort (fun a b => b ≤ a) lines) :=
    List.sorted_insertionSort _ lines
  have hn : (List.insertionSort (fun a b : Int => b ≤ a) lines).Nodup :=
    (List.perm_insertionSort _ lines).symm.nodup hnd
  exact (hs.and hn).imp fun h => lt_of_le_of_ne h.1 fun e => h.2 e.symm

lemma clear_lines_eq (b : Board) (lines : List Int) (hwf : WellFormed b)
    (hne : lines ≠ []) (hnd : lines.Nodup)
    (hin : ∀ i ∈ lines, 0 ≤ i ∧ i < (b.height : Int)) :
    clear_lines b lines = some (cleared_board b lines) ∧
    (removeRows b.grid lines).length + lines.length = b.grid.length := by
  have hperm := List.perm_insertionSort (fun a b : Int => b ≤ a) lines
  have hpw := sort_desc_strict lines hnd
  have hrange : ∀ d ∈ List.insertionSort (fun a b : Int => b ≤ a) lines,
      0 ≤ d ∧ d < (b.grid.length : Int) := by
    intro d hd
    have := hin d (hperm.mem_iff.mp hd)
    rw [hwf.1]
    exact this
  have hdel := delete_rows_eq _ b.grid hpw hrange
  have hcongr : removeRows b.grid (List.insertionSort (fun a b : Int => b ≤ a) lines) =
      removeRows b.grid lines :=
    removeRowsAux_congr _ _ (fun x => hperm.mem_iff) b.grid 0
  constructor
  · unfold clear_lines
    rw [if_neg hne, hdel, Option.map_some', hcongr]
    rfl
  · have hlen := removeRows_length _ b.grid hpw hrange
    rw [hcongr] at hlen
    rw [← hlen, hperm.length_eq]

lemma cleared_board_length (b : Board) (lines : List Int) (hwf : WellFormed b)
    (hlen : (removeRows b.grid lines).length + lines.length = b.grid.length) :
    (cleared_board b lines).grid.length = b.height := by
  simp only [cleared_board, List.length_append, List.length_replicate]
  have := hwf.1
  omega

lemma get_complete_lines_eq_nil {b : Board}
    (h : ∀ r, r < b.height → row_full b.width (b.grid.getD r []) = false) :
    get_complete_lines b = [] := by
  unfold get_complete_lines
  rw [List.map_eq_nil_iff, List.filter_eq_nil_iff]
  intro a ha
  rw [h a (List.mem_range.mp ha)]
  simp

lemma cleared_board_rows (b : Board) (lines : List Int) (hwf : WellFormed b) :
    ∀ r ∈ (cleared_board b lines).grid, r.length = b.width := by
  intro r hr
  simp only [cleared_board] at hr
  rcases List.mem_append.mp hr with h | h
  · rw [List.eq_of_mem_replicate h, List.length_replicate]
  · obtain ⟨j, hj, _⟩ := mem_removeRows h
    exact hwf.2 r (List.getElem?_mem hj)

/-- C7: for every board and all integer coordinates outside
`[0,height) × [0,width)`, `get_cell` returns empty, and `set_cell` and
`clear_cell` leave the board (hence every cell of the grid) unchanged;
none of the three raises an error. -/
theorem cell_ops_oob (b : Board) (row col : Int) (v : String)
    (h : ¬(0 ≤ row ∧ row < (b.height : Int) ∧ 0 ≤ col ∧ col < (b.width : Int))) :
    get_cell b row col = none ∧ set_cell b row col v = b ∧
    clear_cell b row col = b := by
  unfold get_cell set_cell clear_cell
  rw [if_neg h, if_neg h, if_neg h]
  exact ⟨rfl, rfl, rfl⟩

/-- Witness for C7 at the concrete out-of-bounds coordinate `(-1, 0)` on
the default 10×20 board. -/
theorem cell_ops_oob_witness :
    get_cell (Board.init 10 20) (-1) 0 = none ∧
    set_cell (Board.init 10 20) (-1) 0 "red" = Board.init 10 20 ∧
    clear_cell (Board.init 10 20) (-1) 0 = Board.init 10 20 :=
  cell_ops_oob (Board.init 10 20) (-1) 0 "red" (by decide)

/-- C2 counterexample: with the duplicate (in-range) index list `[1, 1]`
on a 1×2 board, the second `del self.grid[1]` of `clear_lines` indexes a
list that now has only one row, so Python raises `IndexError` (`none`);
the claim says `clear_lines` completes for lists containing duplicates. -/
theorem clear_lines_duplicate_cex :
    clear_lines (Board.init 1 2) [1, 1] = none := by decide

/-- C2 (amended): for every well-formed board and every non-empty list of
pairwise-distinct in-range row indices, in any order, `clear_lines`
completes without raising and returns the board whose grid consists of
`lines.length` fresh empty rows on top of the non-removed rows of the old
grid in their original order (so each surviving row drops by the number
of removed rows below it), and the result again has exactly `height` rows
of `width` cells. -/
theorem clear_lines_spec (b : Board) (lines : List Int) (hwf : WellFormed b)
    (hne : lines ≠ []) (hnd : lines.Nodup)
    (hin : ∀ i ∈ lines, 0 ≤ i ∧ i < (b.height : Int)) :
    clear_lines b lines = some (cleared_board b lines) ∧
    WellFormed (cleared_board b lines) := by
  obtain ⟨h1, h2⟩ := clear_lines_eq b lines hwf hne hnd hin
  exact ⟨h1, cleared_board_length b lines hwf h2, cleared_board_rows b lines hwf⟩

/-- Witness for C2 on a concrete board: clearing rows `[1, 0]` of the
empty 2×2 board. -/
theorem clear_lines_spec_witness :
    clear_lines (Board.init 2 2) [1, 0] = some (cleared_board (Board.init 2 2) [1, 0]) ∧
    WellFormed (cleared_board (Board.init 2 2) [1, 0]) :=
  clear_lines_spec (Board.init 2 2) [1, 0] (by decide) (by decide) (by decide)
    (by decide)

/-- C3 counterexample: on the 1×2 board whose rows are both complete,
clearing `R = [1]` shifts the other complete row down to index 1, so
`get_complete_lines` afterwards reports row 1, which is a member of `R`. -/
theorem clear_then_complete_cex :
    clear_lines fullBoard [1] = some fullBoardCleared ∧
    (1 : Int) ∈ get_complete_lines fullBoardCleared := by decide

/-- C3 (amended): for every well-formed board of positive width, clearing
exactly the rows reported by `get_complete_lines` succeeds and yields a
board on which `get_complete_lines` is empty — in particular no cleared
row index is reported as complete again. -/
theorem clear_complete_lines_spec (b : Board) (hwf : WellFormed b)
    (hw : 0 < b.width) :
    ∃ b2, clear_lines b (get_complete_lines b) = some b2 ∧
      get_complete_lines b2 = [] := by
  by_cases hR : get_complete_lines b = []
  · refine ⟨b, ?_, hR⟩
    rw [hR]
    simp [clear_lines]
  · have hnd : (get_complete_lines b).Nodup := by
      unfold get_complete_lines
      exact ((List.nodup_range _).filter _).map Nat.cast_injective
    have hin : ∀ i ∈ get_complete_lines b, 0 ≤ i ∧ i < (b.height : Int) := by
      intro i hi
      unfold get_complete_lines at hi
      obtain ⟨r, hr, rfl⟩ := List.mem_map.mp hi
      have := List.mem_range.mp (List.mem_filter.mp hr).1
      constructor
      · omega
      · omega
    obtain ⟨heq, hlen⟩ := clear_lines_eq b (get_complete_lines b) hwf hR hnd hin
    refine ⟨cleared_board b (get_complete_lines b), heq, ?_⟩
    have hglen : (cleared_board b (get_complete_lines b)).grid.length = b.height :=
      cleared_board_length b _ hwf hlen
    have hallrows : ∀ row ∈ (cleared_board b (get_complete_lines b)).grid,
        row_full b.width row = false := by
      intro row hrow
      simp only [cleared_board] at hrow
      rcases List.mem_append.mp hrow with h | h
      · rw [List.eq_of_mem_replicate h, Bool.eq_false_iff]
        intro hall
        have h0 := List.all_eq_true.mp hall 0 (List.mem_range.mpr hw)
        have hz : (List.replicate b.width (none : Option String)).getD 0 none = none := by
          rcases Nat.exists_eq_add_of_lt hw with ⟨k, hk⟩
          rw [hk]
          simp [List.replicate]
        rw [hz] at h0
        simp at h0
      · obtain ⟨j, hj, hjR⟩ := mem_removeRows h
        rw [Bool.eq_false_iff]
        intro hfull
        apply hjR
        have hjlen : j < b.grid.length := by
          by_contra hge
          push_neg at hge
          rw [List.getElem?_eq_none hge] at hj
          cases hj
        have hrowj : b.grid.getD j [] = row := by
          rw [List.getD_eq_getElem?_getD, hj]
          rfl
        unfold get_complete_lines
        refine List.mem_map.mpr ⟨j, List.mem_filter.mpr ⟨?_, ?_⟩, rfl⟩
        · exact List.mem_range.mpr (by rw [← hwf.1]; exact hjlen)
        · rw [hrowj]
          exact hfull
    apply get_complete_lines_eq_nil
    intro r hrh
    have hmem : (cleared_board b (get_complete_lines b)).grid.getD r [] ∈
        (cleared_board b (get_complete_lines b)).grid := by
      have hlt : r < (cleared_board b (get_complete_lines b)).grid.length := by
        rw [hglen]; exact hrh
      rw [List.getD_eq_getElem?_getD, List.getElem?_eq_getElem hlt]
      exact List.getElem_mem hlt
    exact hallrows _ hmem

/-- Witness for C3 on the concrete fully-occupied 1×2 board. -/
theorem clear_complete_lines_spec_witness :
    ∃ b2, clear_lines fullBoard (get_complete_lines fullBoard) = some b2 ∧
      get_complete_lines b2 = [] :=
  clear_complete_lines_spec fullBoard (by decide) (by decide)

/-- C8: for distinct in-range row indices `a ≠ c`, clearing `[a, c]` and
clearing `[c, a]` produce identical results (the descending sort makes
the deletion order canonical). -/
theorem clear_lines_comm (b : Board) (a c : Int) (hne : a ≠ c)
    (_ha : 0 ≤ a ∧ a < (b.height : Int)) (_hc : 0 ≤ c ∧ c < (b.height : Int)) :
    clear_lines b [a, c] = clear_lines b [c, a] := by
  unfold clear_lines
  rw [if_neg (by simp), if_neg (by simp)]
  have hsort : List.insertionSort (fun x y : Int => y ≤ x) [a, c] =
      List.insertionSort (fun x y : Int => y ≤ x) [c, a] := by
    rcases lt_or_gt_of_ne hne with h | h
    · simp [List.insertionSort, List.orderedInsert, le_of_lt h, not_le.mpr h]
    · simp [List.insertionSort, List.orderedInsert, le_of_lt h, not_le.mpr h]
  rw [hsort]
  rfl

/-- Witness for C8: rows 3 and 5 on the default empty board. -/
theorem clear_lines_comm_witness :
    clear_lines (Board.init 10 20) [3, 5] = clear_lines (Board.init 10 20) [5, 3] :=
  clear_lines_comm (Board.init 10 20) 3 5 (by decide) (by decide) (by decide)

lemma reachable_lines_nonneg {hs0 : Int} {s : ScoreManager}
    (h : Reachable hs0 s) : 0 ≤ s.lines_cleared := by
  induction h with
  | start => exact le_refl 0
  | line_clear n _ ih =>
    simp only [add_line_clear_score, points_map]
    split_ifs <;> simp <;> omega
  | soft_drop c hc _ ih => simpa [add_soft_drop_score] using ih
  | high_update _ ih =>
    unfold update_high_score
    split <;> simpa using ih

lemma reachable_level_pos {hs0 : Int} {s : ScoreManager}
    (h : Reachable hs0 s) : 1 ≤ get_level s := by
  have hl := reachable_lines_nonneg h
  have : 0 ≤ Int.fdiv s.lines_cleared 10 := Int.fdiv_nonneg hl (by norm_num)
  unfold get_level
  omega

/-- C1 counterexample: `add_soft_drop_score` adds its argument to the
score unconditionally, so calling it with the negative integer `-1` on
the (reachable) freshly initialised manager strictly decreases the score. -/
theorem soft_drop_negative_cex :
    Reachable 0 ScoreManager.init ∧
    (add_soft_drop_score (-1) ScoreManager.init).score < ScoreManager.init.score :=
  ⟨Reachable.start, by decide⟩

/-- C1 (amended): in every state reachable within a single game, the
Score Tracker operations leave the score non-decreasing when
`add_soft_drop_score` is restricted to non-negative cell counts:
`add_line_clear_score` with any integer argument and `update_high_score`
never decrease the score, and neither does `add_soft_drop_score c` for
`0 ≤ c`. -/
theorem score_monotonic (hs0 : Int) (s : ScoreManager) (h : Reachable hs0 s) :
    (∀ n : Int, s.score ≤ (add_line_clear_score n s).score) ∧
    (∀ c : Int, 0 ≤ c → s.score ≤ (add_soft_drop_score c s).score) ∧
    s.score ≤ (update_high_score s).score := by
  have hlev := reachable_level_pos h
  refine ⟨?_, ?_, ?_⟩
  · intro n
    simp only [add_line_clear_score, points_map]
    split_ifs <;> simp <;> nlinarith
  · intro c hc
    simp only [add_soft_drop_score]
    omega
  · unfold update_high_score
    split <;> simp

/-- Witness for C1 at the initial manager with a soft drop of 3 cells. -/
theorem score_monotonic_witness :
    ScoreManager.init.score ≤ (add_soft_drop_score 3 ScoreManager.init).score :=
  (score_monotonic 0 ScoreManager.init Reachable.start).2.1 3 (by decide)

/-- C6: `add_line_clear_score n` with `n` in `{1, 2, 3, 4}` adds the
corresponding entry of `{100, 300, 500, 800}` multiplied by the level
computed from `lines_cleared` before the call, and adds `n` to
`lines_cleared`; any other integer `n` leaves the state unchanged and
raises no error. -/
theorem add_line_clear_score_spec (s : ScoreManager) (n : Int) :
    add_line_clear_score n s =
      if n = 1 then
        { s with score := s.score + 100 * get_level s
                 lines_cleared := s.lines_cleared + 1 }
      else if n = 2 then
        { s with score := s.score + 300 * get_level s
                 lines_cleared := s.lines_cleared + 2 }
      else if n = 3 then
        { s with score := s.score + 500 * get_level s
                 lines_cleared := s.lines_cleared + 3 }
      else if n = 4 then
        { s with score := s.score + 800 * get_level s
                 lines_cleared := s.lines_cleared + 4 }
      else s := by
  simp only [add_line_clear_score, points_map]
  split_ifs <;> simp_all

/-- Witness for C6: a double line clear on the fresh manager awards
`300 × level 1` points and records 2 lines. -/
theorem add_line_clear_score_spec_witness :
    add_line_clear_score 2 ScoreManager.init =
      { score := 300, lines_cleared := 2, high_score := 0 } := by
  rw [add_line_clear_score_spec]
  decide

/-- C9: `get_drop_speed` equals `max(50, 1000 − (level − 1) × 100)` with
`level = 1 + lines_cleared // 10`; it is non-increasing as the level
grows and is exactly 50 from level 11 on. -/
theorem get_drop_speed_spec (gs : GameState) :
    get_drop_speed gs =
      max 50 (1000 - ((1 + Int.fdiv gs.score_manager.lines_cleared 10) - 1) * 100) ∧
    (∀ gs2 : GameState,
      get_level gs.score_manager ≤ get_level gs2.score_manager →
      get_drop_speed gs2 ≤ get_drop_speed gs) ∧
    (11 ≤ get_level gs.score_manager → get_drop_speed gs = 50) := by
  refine ⟨?_, ?_, ?_⟩
  · unfold get_drop_speed get_level
    rw [max_comm]
  · intro gs2 hle
    unfold get_drop_speed
    have h100 : (get_level gs2.score_manager - 1) * 100 ≥
        (get_level gs.score_manager - 1) * 100 := by nlinarith
    exact max_le_max (by omega) (le_refl 50)
  · intro h11
    unfold get_drop_speed
    apply max_eq_right
    nlinarith

/-- Witness for C9: a game with 100 lines cleared is at level 11 and
drops every 50 ms. -/
theorem get_drop_speed_spec_witness :
    get_drop_speed
      { startState with
        score_manager := { score := 0, lines_cleared := 100, high_score := 0 } } = 50 :=
  (get_drop_speed_spec _).2.2 (by decide)

/-- C4: `can_rotate` returns true exactly when every absolute cell of the
piece's next rotation state (rotation index advanced by one mod 4,
offsets applied to the unchanged anchor) is a valid board position, and
the rotation does not newly bring the piece flush against a wall: it is
rejected when the post-rotation minimum column is 0 while the current
minimum column is positive, or the post-rotation maximum column is
`width − 1` while the current maximum column is smaller, even when all
post-rotation cells are valid. -/
theorem can_rotate_spec (b : Board) (p : Tetromino) :
    can_rotate b p = true ↔
      ((∀ off ∈ PIECE_SHAPES p.type (p.rotation_state + 1),
          is_valid_position b (p.row + off.1) (p.col + off.2) = true) ∧
        ¬((list_min (shape_cols p.col (PIECE_SHAPES p.type (p.rotation_state + 1))) = 0 ∧
            0 < list_min (shape_cols p.col (PIECE_SHAPES p.type p.rotation_state))) ∨
          (list_max (shape_cols p.col (PIECE_SHAPES p.type (p.rotation_state + 1))) =
              (b.width : Int) - 1 ∧
            list_max (shape_cols p.col (PIECE_SHAPES p.type p.rotation_state)) <
              (b.width : Int) - 1))) := by
  simp only [can_rotate]
  split_ifs with h1 h2
  · constructor
    · intro h
      exact absurd h (by simp)
    · intro h
      rw [Bool.not_eq_true'] at h1
      obtain ⟨off, hoff, hbad⟩ := List.all_eq_false.mp h1
      exact absurd (h.1 off hoff) hbad
  · constructor
    · intro h
      exact absurd h (by simp)
    · intro h
      exact (h.2 h2).elim
  · constructor
    · intro _
      refine ⟨?_, h2⟩
      rw [Bool.not_eq_true', Bool.not_eq_false] at h1
      exact List.all_eq_true.mp h1
    · intro _
      rfl

/-- Witness for C4: the T piece freshly spawned on the empty default
board can rotate. -/
theorem can_rotate_spec_witness :
    can_rotate (Board.init 10 20) (Tetromino.init .T) = true :=
  (can_rotate_spec (Board.init 10 20) (Tetromino.init .T)).mpr ⟨by decide, by decide⟩

/-- C5: `get_wall_kick_offset` tests the anchor offsets in the exact
order left 1, right 1, left 2, right 2, up 1, returns the first for which
every post-rotation absolute cell of the next rotation state is a valid
board position, and returns `None` when no candidate succeeds. -/
theorem get_wall_kick_offset_spec (b : Board) (p : Tetromino) :
    get_wall_kick_offset b p =
      (if rotation_fits b p (0, -1) = true then some ((0 : Int), (-1 : Int))
       else if rotation_fits b p (0, 1) = true then some ((0 : Int), (1 : Int))
       else if rotation_fits b p (0, -2) = true then some ((0 : Int), (-2 : Int))
       else if rotation_fits b p (0, 2) = true then some ((0 : Int), (2 : Int))
       else if rotation_fits b p (-1, 0) = true then some ((-1 : Int), (0 : Int))
       else none) ∧
    (∀ off : Int × Int, rotation_fits b p off = true ↔
      ∀ s ∈ PIECE_SHAPES p.type (p.rotation_state + 1),
        is_valid_position b (p.row + off.1 + s.1) (p.col + off.2 + s.2) = true) := by
  constructor
  · unfold get_wall_kick_offset kick_offsets
    by_cases h1 : rotation_fits b p (0, -1) = true
    · rw [List.find?_cons_of_pos _ h1, if_pos h1]
    · rw [List.find?_cons_of_neg _ h1, if_neg h1]
      by_cases h2 : rotation_fits b p (0, 1) = true
      · rw [List.find?_cons_of_pos _ h2, if_pos h2]
      · rw [List.find?_cons_of_neg _ h2, if_neg h2]
        by_cases h3 : rotation_fits b p (0, -2) = true
        · rw [List.find?_cons_of_pos _ h3, if_pos h3]
        · rw [List.find?_cons_of_neg _ h3, if_neg h3]
          by_cases h4 : rotation_fits b p (0, 2) = true
          · rw [List.find?_cons_of_pos _ h4, if_pos h4]
          · rw [List.find?_cons_of_neg _ h4, if_neg h4]
            by_cases h5 : rotation_fits b p (-1, 0) = true
            · rw [List.find?_cons_of_pos _ h5, if_pos h5]
            · rw [List.find?_cons_of_neg _ h5, if_neg h5]
              rfl
  · intro off
    unfold rotation_fits
    exact List.all_eq_true

/-- Witness for C5: for the freshly spawned T piece on the empty default
board the very first candidate, left 1, already fits. -/
theorem get_wall_kick_offset_spec_witness :
    get_wall_kick_offset (Board.init 10 20) (Tetromino.init .T) = some (0, -1) := by
  rw [(get_wall_kick_offset_spec (Board.init 10 20) (Tetromino.init .T)).1]
  decide

/-- C10: when both the current and the next piece are absent (as in the
START state or immediately after `reset`), `try_spawn_piece` raises an
attribute error (`none`) instead of returning a flag; whenever the next
piece is present in every situation where the current one is absent, it
is total and returns a boolean result. -/
theorem try_spawn_piece_spec (gs : GameState) (fresh : Tetromino) :
    (gs.current_piece = none → gs.next_piece = none →
      try_spawn_piece gs fresh = none) ∧
    ((gs.current_piece = none → gs.next_piece ≠ none) →
      ∃ r : Bool × GameState, try_spawn_piece gs fresh = some r) := by
  obtain ⟨st, bd, sm, cur, nxt⟩ := gs
  rcases cur with _ | p
  · rcases nxt with _ | q
    · exact ⟨fun _ _ => rfl, fun h => absurd rfl (h rfl)⟩
    · refine ⟨fun _ h => (Option.some_ne_none q h).elim, fun _ => ?_⟩
      simp only [try_spawn_piece, spawn_next_piece, if_true, Option.map_some']
      split
      · exact ⟨_, rfl⟩
      · exact ⟨_, rfl⟩
  · refine ⟨fun h => (Option.some_ne_none p h).elim, fun _ => ?_⟩
    simp only [try_spawn_piece, if_neg (Option.some_ne_none p)]
    split
    · exact ⟨_, rfl⟩
    · exact ⟨_, rfl⟩

/-- Witness for C10: in the START configuration (no current piece, no
next piece) spawning raises, i.e. returns `none`. -/
theorem try_spawn_piece_spec_witness :
    try_spawn_piece startState (Tetromino.init .I) = none :=
  (try_spawn_piece_spec startState (Tetromino.init .I)).1 rfl rfl

end PyTetris
